import Mathlib

/-!
Shallow embedding of the Database Response Sanitizer
(`utils/databaseSanitizer.js`, enhanced version) of the
paper-route-news-website repository, together with proofs of the
specification claims about it.

JavaScript values are modelled explicitly: primitives are an inductive
type, compound values (plain objects, arrays, CLOB handles, dates and
other host objects) live on an explicit heap addressed by natural
numbers, so that cyclic object graphs are representable.  Property
accesses that may throw (getters) are modelled by `FieldVal.fthrow`;
asynchronous CLOB fetches are modelled by an `Except` result stored on
the CLOB node; host-level failures of the parallel dispatch mechanism
and of a whole batch promise are modelled by an explicit environment
oracle `Env`.  Function-valued object members and invalid `Date`
objects do not occur in driver result sets and are outside the modelled
value universe.
-/

/-- JavaScript numbers, as far as the sanitizer distinguishes them:
`NaN`, the two infinities, and finite values. -/
inductive JSNum where
  | nan
  | inf
  | ninf
  | fin (x : Int)
deriving DecidableEq

/-- JavaScript primitive values (`typeof v !== 'object'`, plus `null`). -/
inductive Prim where
  | vnull
  | vundef
  | vstr (s : String)
  | vnum (n : JSNum)
  | vbool (b : Bool)
deriving DecidableEq

/-- A JavaScript value: a primitive, or a reference to a heap object. -/
inductive Val where
  | prim (p : Prim)
  | ref (id : Nat)
deriving DecidableEq

/-- The result of reading an own property: either a value, or the read
throws (a throwing getter). -/
inductive FieldVal where
  | fval (v : Val)
  | fthrow
deriving DecidableEq

/-- Heap objects, classified the way the sanitizer's capability probes
classify them.  A `plainObj` is an object with `constructor === Object`
(its own `value` key, if any, makes it an Oracle wrapped scalar);
`arrN` is a JavaScript array; `clobN` is a driver CLOB handle whose
`getData()` promise either resolves (possibly to `null`, i.e. `none`)
or rejects; `dateN` is a (valid) `Date` with its ISO string; `otherN`
is any other host object together with the result of `String(obj)`
(`none` when the conversion throws). -/
inductive Node where
  | plainObj (fields : List (String × FieldVal))
  | arrN (elems : List Val)
  | clobN (res : Except Unit (Option String))
  | dateN (iso : String)
  | otherN (conv : Option String)

/-- The heap: an association of object identities to objects. -/
abbrev Heap := List (Nat × Node)

/-- JavaScript truthiness of a value. -/
def jsTruthy : Val → Bool
  | .prim .vnull => false
  | .prim .vundef => false
  | .prim (.vstr s) => s ≠ ""
  | .prim (.vnum n) =>
    match n with
    | .nan => false
    | .fin x => x ≠ 0
    | _ => true
  | .prim (.vbool b) => b
  | .ref _ => true

namespace DatabaseSanitizer

/-! ### String sanitization (`validateAndSanitizeValue`, string case)

`value.replace(/[\x00-\x1F\x7F]/g, '').trim()`: control characters are
removed, then the JavaScript whitespace set is trimmed from both ends. -/

/-- Characters matched by the regular expression `[\x00-\x1F\x7F]`. -/
def isCtlChar (c : Char) : Bool :=
  c.val ≤ 0x1F || c.val == 0x7F

/-- The characters removed by `String.prototype.trim` (ECMAScript
WhiteSpace and LineTerminator). -/
def isJsSpace (c : Char) : Bool :=
  c.val == 0x09 || c.val == 0x0A || c.val == 0x0B || c.val == 0x0C ||
    c.val == 0x0D || c.val == 0x20 || c.val == 0xA0 || c.val == 0x1680 ||
    (0x2000 ≤ c.val && c.val ≤ 0x200A) || c.val == 0x2028 ||
    c.val == 0x2029 || c.val == 0x202F || c.val == 0x205F ||
    c.val == 0x3000 || c.val == 0xFEFF

/-- `replace(/[\x00-\x1F\x7F]/g, '')` on the character list. -/
def removeCtlL (l : List Char) : List Char :=
  l.filter (fun c => !isCtlChar c)

/-- Drop leading JavaScript whitespace. -/
def trimLeftL (l : List Char) : List Char :=
  l.dropWhile isJsSpace

/-- Drop trailing JavaScript whitespace. -/
def trimRightL (l : List Char) : List Char :=
  (l.reverse.dropWhile isJsSpace).reverse

/-- `String.prototype.trim` on the character list. -/
def jsTrimL (l : List Char) : List Char :=
  trimRightL (trimLeftL l)

/-- The string case of `validateAndSanitizeValue`:
`value.replace(/[\x00-\x1F\x7F]/g, '').trim()`. -/
def sanitizeString (s : String) : String :=
  String.mk (jsTrimL (removeCtlL s.data))

/-- `validateAndSanitizeValue`: strings are stripped of control
characters and trimmed; `NaN`/`±Infinity` become `null`; finite
numbers, booleans, `null`/`undefined` pass unchanged; any other value
(object references, after a logged warning) is returned as-is. -/
def validateAndSanitizeValue : Val → Val
  | .prim (.vstr s) => .prim (.vstr (sanitizeString s))
  | .prim (.vnum n) =>
    match n with
    | .fin x => .prim (.vnum (.fin x))
    | _ => .prim .vnull
  | v => v

end DatabaseSanitizer

namespace StringFacts

open DatabaseSanitizer

theorem dropWhile_idem (p : Char → Bool) (l : List Char) :
    (l.dropWhile p).dropWhile p = l.dropWhile p := by
  induction l with
  | nil => simp
  | cons a l ih =>
    by_cases h : p a
    · simpa [List.dropWhile_cons, h] using ih
    · simp [List.dropWhile_cons, h]

theorem trimLeftL_idem (l : List Char) :
    trimLeftL (trimLeftL l) = trimLeftL l :=
  dropWhile_idem _ l

theorem trimRightL_idem (l : List Char) :
    trimRightL (trimRightL l) = trimRightL l := by
  simp [trimRightL, dropWhile_idem]

/-- A list unchanged by `dropWhile` has a head not satisfying `p`. -/
theorem head_not_of_dropWhile_eq (p : Char → Bool) (l : List Char)
    (h : l.dropWhile p = l) : ∀ x ∈ l.head?, ¬ p x = true := by
  cases l with
  | nil => simp
  | cons a l =>
    intro x hx
    simp only [List.head?_cons, Option.mem_def, Option.some.injEq] at hx
    subst hx
    intro hp
    rw [List.dropWhile_cons, if_pos hp] at h
    have hlen := congrArg List.length h
    have hle := (List.dropWhile_sublist (l := l) (p := p)).length_le
    simp only [List.length_cons] at hlen
    omega

/-- Conversely, `dropWhile` is the identity when the head fails `p`. -/
theorem dropWhile_eq_of_head_not (p : Char → Bool) (l : List Char)
    (h : ∀ x ∈ l.head?, ¬ p x = true) : l.dropWhile p = l := by
  cases l with
  | nil => simp
  | cons a l =>
    have : ¬ p a = true := h a (by simp)
    simp [List.dropWhile_cons, this]

/-- `trimRightL l` is an initial segment of `l`. -/
theorem trimRightL_append (l : List Char) :
    ∃ r, trimRightL l ++ r = l := by
  obtain ⟨t, ht⟩ := List.dropWhile_suffix (l := l.reverse) (p := isJsSpace)
  refine ⟨t.reverse, ?_⟩
  have := congrArg List.reverse ht
  simpa [trimRightL] using this

theorem head_eq_of_append (t r m : List Char) (h : t ++ r = m)
    (hne : t ≠ []) : t.head? = m.head? := by
  cases t with
  | nil => exact absurd rfl hne
  | cons a t => simp [← h]

/-- Trimming the right end of a left-trimmed list leaves it
left-trimmed. -/
theorem trimLeftL_trimRightL (m : List Char) (h : trimLeftL m = m) :
    trimLeftL (trimRightL m) = trimRightL m := by
  by_cases hne : trimRightL m = []
  · simp [trimLeftL, hne]
  · obtain ⟨r, hr⟩ := trimRightL_append m
    have hhead : (trimRightL m).head? = m.head? :=
      head_eq_of_append _ _ _ hr hne
    refine dropWhile_eq_of_head_not _ _ ?_
    intro x hx
    exact head_not_of_dropWhile_eq isJsSpace m h x (hhead ▸ hx)

theorem jsTrimL_idem (l : List Char) :
    jsTrimL (jsTrimL l) = jsTrimL l := by
  unfold jsTrimL
  rw [trimLeftL_trimRightL (trimLeftL l) (trimLeftL_idem l),
    trimRightL_idem]

/-- Membership is preserved from a trimmed list to the original. -/
theorem mem_of_mem_jsTrimL (x : Char) (l : List Char)
    (h : x ∈ jsTrimL l) : x ∈ l := by
  have h1 : x ∈ trimLeftL l := by
    have := (List.dropWhile_sublist (l := (trimLeftL l).reverse)
      (p := isJsSpace)).subset
    have hx : x ∈ (trimLeftL l).reverse.dropWhile isJsSpace := by
      simpa [jsTrimL, trimRightL] using h
    simpa using this hx
  exact (List.dropWhile_sublist (l := l) (p := isJsSpace)).subset h1

theorem removeCtlL_jsTrimL (l : List Char) :
    removeCtlL (jsTrimL (removeCtlL l)) = jsTrimL (removeCtlL l) := by
  apply List.filter_eq_self.mpr
  intro a ha
  have : a ∈ removeCtlL l := mem_of_mem_jsTrimL a _ ha
  exact (List.mem_filter.mp this).2

/-- Stripping control characters and trimming reaches a fixed point
after one application. -/
theorem sanitizeString_idem (s : String) :
    sanitizeString (sanitizeString s) = sanitizeString s := by
  simp [sanitizeString, removeCtlL_jsTrimL, jsTrimL_idem]

end StringFacts

/-- C9: the value validator is idempotent on strings and numbers. -/
theorem validateAndSanitizeValue_idem (v : Val)
    (h : (∃ s, v = .prim (.vstr s)) ∨ (∃ n, v = .prim (.vnum n))) :
    DatabaseSanitizer.validateAndSanitizeValue
        (DatabaseSanitizer.validateAndSanitizeValue v) =
      DatabaseSanitizer.validateAndSanitizeValue v := by
  rcases h with ⟨s, rfl⟩ | ⟨n, rfl⟩
  · simp [DatabaseSanitizer.validateAndSanitizeValue,
      StringFacts.sanitizeString_idem]
  · cases n <;> simp [DatabaseSanitizer.validateAndSanitizeValue]

/-- C9 witness: idempotence evaluated on the concrete string
`"  hi\x07 "` (leading/trailing spaces, an embedded control character)
and on `NaN`. -/
theorem validateAndSanitizeValue_idem_witness :
    ((∃ s, Val.prim (.vstr "  hi\x07 ") = Val.prim (.vstr s)) ∨
      (∃ n, Val.prim (.vstr "  hi\x07 ") = Val.prim (.vnum n))) ∧
    DatabaseSanitizer.validateAndSanitizeValue
        (DatabaseSanitizer.validateAndSanitizeValue
          (Val.prim (.vstr "  hi\x07 "))) =
      DatabaseSanitizer.validateAndSanitizeValue
        (Val.prim (.vstr "  hi\x07 ")) ∧
    DatabaseSanitizer.validateAndSanitizeValue
        (DatabaseSanitizer.validateAndSanitizeValue
          (Val.prim (.vnum .nan))) =
      DatabaseSanitizer.validateAndSanitizeValue
        (Val.prim (.vnum .nan)) := by
  refine ⟨Or.inl ⟨_, rfl⟩,
    validateAndSanitizeValue_idem _ (Or.inl ⟨_, rfl⟩),
    validateAndSanitizeValue_idem _ (Or.inr ⟨_, rfl⟩)⟩

namespace DatabaseSanitizer

/-! ### Heap access -/

/-- The set of object identities present on the heap. -/
def heapIds (h : Heap) : Finset Nat :=
  (h.map Prod.fst).toFinset

/-- Number of heap objects not yet on the current recursion path; the
termination measure for graph traversal. -/
def unvisitedCard (h : Heap) (visited : Finset Nat) : Nat :=
  (heapIds h \ visited).card

theorem lookup_mem_heapIds (h : Heap) (id : Nat) (n : Node)
    (hfind : List.lookup id h = some n) : id ∈ heapIds h := by
  induction h with
  | nil => simp [List.lookup] at hfind
  | cons kv rest ih =>
    obtain ⟨k, nd⟩ := kv
    by_cases hk : id = k
    · subst hk
      simp [heapIds]
    · have hbeq : (id == k) = false := by simp [hk]
      rw [List.lookup_cons, hbeq] at hfind
      simp only [Bool.false_eq_true, if_false] at hfind
      have := ih hfind
      simp only [heapIds, List.map_cons, List.mem_toFinset,
        List.mem_cons] at this ⊢
      exact Or.inr (by simpa [heapIds] using this)

theorem unvisitedCard_insert_lt (h : Heap) (visited : Finset Nat)
    (id : Nat) (n : Node) (hfind : List.lookup id h = some n)
    (hvis : id ∉ visited) :
    unvisitedCard h (insert id visited) < unvisitedCard h visited := by
  apply Finset.card_lt_card
  constructor
  · exact Finset.sdiff_subset_sdiff (Finset.Subset.refl _)
      (Finset.subset_insert id visited)
  · intro hcontra
    have hidS : id ∈ heapIds h := lookup_mem_heapIds h id n hfind
    have h1 : id ∈ heapIds h \ visited := by
      simp [Finset.mem_sdiff, hidS, hvis]
    have h2 : id ∈ heapIds h \ insert id visited := hcontra h1
    simp [Finset.mem_sdiff] at h2

/-- Read an own property of a value, when the value is a plain object
holding it (`Object.prototype.hasOwnProperty`).  Index and `length`
own-properties of arrays are not modelled: the engine's field mappings
use named database columns. -/
def getOwn (h : Heap) (v : Val) (key : String) : Option FieldVal :=
  match v with
  | .ref id =>
    match List.lookup id h with
    | some (.plainObj fields) => List.lookup key fields
    | _ => none
  | _ => none

/-- `Object.prototype.hasOwnProperty.call(v, key)`. -/
def hasOwn (h : Heap) (v : Val) (key : String) : Bool :=
  (getOwn h v key).isSome

/-! ### Sanitized output values -/

/-- Values produced by the sanitizer: fully materialized primitives,
fresh arrays/objects, or a raw heap reference passed through
unconverted (a CLOB handle awaiting extraction, or a non-primitive
wrapped value returned as-is by the validator). -/
inductive Out where
  | oNull
  | oUndef
  | oStr (s : String)
  | oNum (n : JSNum)
  | oBool (b : Bool)
  | oArr (xs : List Out)
  | oObj (fs : List (String × Out))
  | oRawRef (id : Nat)

/-- Raw embedding of a JavaScript value into the output universe
(no validation applied). -/
def valToOut : Val → Out
  | .prim .vnull => .oNull
  | .prim .vundef => .oUndef
  | .prim (.vstr s) => .oStr s
  | .prim (.vnum n) => .oNum n
  | .prim (.vbool b) => .oBool b
  | .ref id => .oRawRef id

/-- A sanitized record: JavaScript-object assignment order preserved. -/
abbrev Rec := List (String × Out)

/-- JavaScript property assignment `r[k] = v` on an association list:
overwrite in place, else append. -/
def setKey {α : Type} : List (String × α) → String → α → List (String × α)
  | [], k, v => [(k, v)]
  | (k', v') :: rest, k, v =>
    if k' = k then (k, v) :: rest else (k', v') :: setKey rest k v

/-- JavaScript `delete r[k]`. -/
def deleteKey {α : Type} (r : List (String × α)) (k : String) :
    List (String × α) :=
  r.filter (fun kv => kv.1 ≠ k)


/-! ### Configuration constants -/

/-- Field names in database column order (`ARTICLE_FIELD_NAMES`). -/
def ARTICLE_FIELD_NAMES : List String :=
  ["ID", "TITLE", "SLUG", "CONTENT", "CATEGORY", "AUTHOR_ID",
   "CREATED_AT", "IMAGE_URL", "SOURCES", "VERIFICATION_DETAILS",
   "VERIFICATION_PDF_URL", "YOUTUBE_EMBED_URL"]

/-- Field mapping for the articles table (`ARTICLE_FIELD_MAPPING`):
database field names map to the frontend field names (uppercase). -/
def ARTICLE_FIELD_MAPPING : List (String × String) :=
  [("ID", "ID"), ("TITLE", "TITLE"), ("SLUG", "SLUG"),
   ("CONTENT", "CONTENT"), ("CATEGORY", "CATEGORY"),
   ("AUTHOR_ID", "AUTHOR_ID"), ("CREATED_AT", "CREATED_AT"),
   ("IMAGE_URL", "IMAGE_URL"), ("SOURCES", "SOURCES"),
   ("VERIFICATION_DETAILS", "VERIFICATION_DETAILS"),
   ("VERIFICATION_PDF_URL", "VERIFICATION_PDF_URL"),
   ("YOUTUBE_EMBED_URL", "YOUTUBE_EMBED_URL")]

/-- CLOB fields requiring `getData()` handling (`CLOB_FIELDS`). -/
def CLOB_FIELDS : List String := ["CONTENT", "SOURCES"]

/-! ### Value extraction (`extractPropertyValue`)

The recursion of `extractPropertyValue` descends through heap
references; its depth is bounded by the number of heap objects not on
the current path, so the embedding carries that bound as structural
fuel.  The fuel-exhaustion branch is unreachable whenever
`fuel ≥ unvisitedCard h visited` (proved below), which holds for the
wrapper `extractPropertyValue`. -/

/-- Member walk for plain objects (`property.constructor === Object`):
own members are enumerated in order; members whose key starts with the
internal marker `_` are skipped; a member whose access throws is
omitted; remaining members are recursively extracted.  (Function-valued
members, which the source also skips, are outside the modelled value
universe.) -/
def walkPlainFields (rec : Val → Out) :
    List (String × FieldVal) → Rec → Rec
  | [], acc => acc
  | (key, fv) :: rest, acc =>
    if key.startsWith "_" then walkPlainFields rec rest acc
    else
      match fv with
      | .fthrow => walkPlainFields rec rest acc
      | .fval w => walkPlainFields rec rest (setKey acc key (rec w))

/-- Process one classified heap object that has just been added to the
recursion path; `rec` extracts child values (one reference-descent
deeper).  Follows the source's probe order: an own `value` key marks an
Oracle wrapped scalar (the nested value is validated, a throwing
accessor yields `null`); a CLOB handle is returned as-is for later
extraction; arrays are mapped element-wise; plain objects are walked;
dates become their ISO string; any other object is stringified and
validated, `null` when stringification throws. -/
def extractNodeWith (rec : Val → Out) (id : Nat) : Node → Out
  | .plainObj fields =>
    match List.lookup "value" fields with
    | some (.fval w) => valToOut (validateAndSanitizeValue w)
    | some .fthrow => .oNull
    | none => .oObj (walkPlainFields rec fields [])
  | .clobN _ => .oRawRef id
  | .arrN elems => .oArr (elems.map rec)
  | .dateN iso => .oStr iso
  | .otherN (some s) => valToOut (validateAndSanitizeValue (.prim (.vstr s)))
  | .otherN none => .oNull

/-- Fuelled extraction: `null`/`undefined` pass through; other
primitives (`typeof ≠ 'object'`) are validated; a reference already on
the recursion path (a back-edge) yields `null`; otherwise the object
is processed with itself added to the path. -/
def extractValFuel (h : Heap) : Nat → Finset Nat → Val → Out
  | _, _, .prim .vnull => .oNull
  | _, _, .prim .vundef => .oUndef
  | _, _, .prim p => valToOut (validateAndSanitizeValue (.prim p))
  | fuel, visited, .ref id =>
    if id ∈ visited then .oNull
    else
      match List.lookup id h with
      | none => .oNull
      | some n =>
        match fuel with
        | 0 => .oNull
        | fuel' + 1 =>
          extractNodeWith (extractValFuel h fuel' (insert id visited))
            id n

/-- `extractPropertyValue(property, visitedObjects = new Set())`. -/
def extractPropertyValue (h : Heap) (property : Val)
    (visited : Finset Nat := ∅) : Out :=
  extractValFuel h (unvisitedCard h visited) visited property

/-! ### Fallback builder (`createFallbackObject`) -/

/-- `createFallbackObject(fieldMapping = ARTICLE_FIELD_MAPPING)`: one
`null` output field per mapping entry, then the degraded-record
marker. -/
def createFallbackObject
    (fm : List (String × String) := ARTICLE_FIELD_MAPPING) : Rec :=
  setKey
    (setKey (fm.foldl (fun acc p => setKey acc p.2 .oNull) [])
      "_isFallback" (.oBool true))
    "_fallbackReason" (.oStr "sanitization_failure")

/-! ### Record sanitizer (`sanitizeObject`) -/

/-- The per-field loop of `sanitizeObject`: for each
`(dbField, cleanField)` mapping pair, check own-property presence
(absent fields are omitted from the output), read and extract the
value; a throwing read is caught and the output field set to `null`,
processing continuing with the remaining pairs. -/
def sanitizeFields (h : Heap) (visited : Finset Nat) (obj : Val) :
    List (String × String) → Rec → Rec
  | [], clean => clean
  | (dbField, cleanField) :: rest, clean =>
    match getOwn h obj dbField with
    | none => sanitizeFields h visited obj rest clean
    | some .fthrow =>
      sanitizeFields h visited obj rest (setKey clean cleanField .oNull)
    | some (.fval w) =>
      sanitizeFields h visited obj rest
        (setKey clean cleanField
          (extractValFuel h (unvisitedCard h visited) visited w))

/-- `sanitizeObject(dbObject, fieldMapping = ARTICLE_FIELD_MAPPING,
visitedObjects = new Set())`: non-object input yields the fallback
record; a circular top-level reference yields the fallback record;
otherwise the object is added to the visited path and the field
mapping is processed pair by pair. -/
def sanitizeObject (h : Heap) (v : Val)
    (fm : List (String × String) := ARTICLE_FIELD_MAPPING)
    (visited : Finset Nat := ∅) : Rec :=
  match v with
  | .prim _ => createFallbackObject fm
  | .ref id =>
    if id ∈ visited then createFallbackObject fm
    else sanitizeFields h (insert id visited) (.ref id) fm []

end DatabaseSanitizer

namespace DatabaseSanitizer

/-! ### CLOB extraction (`extractClobData`) -/

/-- The `getData()` result carried by a CLOB handle, when the value is
one. -/
def clobHandleRes (h : Heap) (p : Val) :
    Option (Except Unit (Option String)) :=
  match p with
  | .ref id =>
    match List.lookup id h with
    | some (.clobN res) => some res
    | _ => none
  | _ => none

/-- Per-field classification of `extractClobData`, in the source's
probe order (the raw value is read inside the per-field `try`, so a
throwing getter falls back to `''`):
(a) a CLOB handle: `await getData()`, using `''` when it resolves to
nothing or rejects; (b) an object with an own `value` key (necessarily
truthy, being an object): its nested value if truthy, else `''`, and
`''` if the accessor throws; (c) a plain string: used as-is; (d)
anything else: `''` with a logged warning; absent fields yield `''`. -/
def extractClobField (h : Heap) (dbObject : Val) (clobField : String) :
    Val :=
  match getOwn h dbObject clobField with
  | none => .prim (.vstr "")
  | some .fthrow => .prim (.vstr "")
  | some (.fval p) =>
    match clobHandleRes h p with
    | some (.ok (some s)) => .prim (.vstr s)
    | some (.ok none) => .prim (.vstr "")
    | some (.error _) => .prim (.vstr "")
    | none =>
      if hasOwn h p "value" then
        match getOwn h p "value" with
        | some (.fval w) => if jsTruthy w then w else .prim (.vstr "")
        | _ => .prim (.vstr "")
      else
        match p with
        | .prim (.vstr s) => .prim (.vstr s)
        | _ => .prim (.vstr "")

/-- `extractClobData(dbObject, clobFields = CLOB_FIELDS)`: non-object
input yields the empty map; otherwise every requested field name is
assigned by the per-field classification, in request order. -/
def extractClobData (h : Heap) (dbObject : Val)
    (clobFields : List String := CLOB_FIELDS) : List (String × Val) :=
  match dbObject with
  | .prim _ => []
  | .ref _ =>
    clobFields.foldl
      (fun acc f => setKey acc f (extractClobField h dbObject f)) []

/-! ### Batch processing (`processBatch`) -/

/-- Merge one CLOB extraction result into a sanitized record
(`processBatch`'s merge loop): the CLOB field name is mapped through
the field mapping (falling back to its lowercase form); a non-empty
result overwrites the mapped field, an empty-string result deletes
it. -/
def mergeClobField (fm : List (String × String)) (rec : Rec)
    (kv : String × Val) : Rec :=
  let mappedField :=
    match List.lookup kv.1 fm with
    | some m => if m = "" then kv.1.toLower else m
    | none => kv.1.toLower
  if kv.2 ≠ .prim (.vstr "") then setKey rec mappedField (valToOut kv.2)
  else deleteKey rec mappedField

/-- The per-record unit of `processBatch`: sanitize the record with a
freshly allocated visited set, then — only when the raw record has at
least one configured CLOB field as an own property — extract the CLOB
data and merge it in. -/
def processRecord (h : Heap) (fm : List (String × String))
    (dbObject : Val) : Rec :=
  let sanitizedObject := sanitizeObject h dbObject fm ∅
  let hasClobFields := CLOB_FIELDS.any (fun f => hasOwn h dbObject f)
  if hasClobFields then
    (extractClobData h dbObject CLOB_FIELDS).foldl
      (mergeClobField fm) sanitizedObject
  else sanitizedObject

/-- `processBatch(batch, fieldMapping)`: each record of the batch is
processed independently, in order. -/
def processBatch (h : Heap) (fm : List (String × String))
    (batch : List Val) : List Rec :=
  batch.map (processRecord h fm)

/-! ### Batch splitting (`createBatches`) -/

/-- Slicing loop of `createBatches`, structurally bounded by the
number of remaining slices (`bound` is kept at least the list length,
so the `bound = 0` branch is unreachable for positive `batchSize`). -/
def createBatchesGo {α : Type} (batchSize : Nat) :
    Nat → List α → List (List α)
  | _, [] => []
  | 0, _ => []
  | bound + 1, x :: xs =>
    (x :: xs).take batchSize ::
      createBatchesGo batchSize bound ((x :: xs).drop batchSize)

/-- `createBatches(array, batchSize)`: consecutive slices of
`batchSize` elements.  A non-positive batch size throws inside the
`try`, and the `catch` returns the original array as a single batch. -/
def createBatches {α : Type} (array : List α) (batchSize : Nat) :
    List (List α) :=
  if batchSize = 0 then [array]
  else createBatchesGo batchSize array.length array

/-! ### Collection orchestrator (`sanitizeArray`) -/

/-- Host-level failure oracle.  `batchFails b` models the
`processBatch` promise for batch `b` rejecting (the source catches
this per batch, in both modes, and substitutes fallback records);
`parallelJoinFails` models the overall parallel dispatch — the
`Promise.all` join itself — throwing (the source's `parallelError`
catch).  The triggering conditions of both catches live outside the
modelled semantics, so they are oracle inputs. -/
structure Env where
  parallelJoinFails : Bool := false
  batchFails : List Val → Bool := fun _ => false

/-- `options` recognized by `sanitizeArray`. -/
structure SanitizeOptions where
  batchSize : Int := 100
  parallel : Bool := false

/-- The array view of a value, when it is a JavaScript array
(`Array.isArray`). -/
def isArrayVal (h : Heap) : Val → Option (List Val)
  | .ref id =>
    match List.lookup id h with
    | some (.arrN elems) => some elems
    | _ => none
  | _ => none

/-- Dynamic batch size optimization: arrays above 1000 records with
the default batch size 100 get a size proportional to the length,
clamped to [50, 200]. -/
def dynBatchSize (len : Nat) (batchSize : Int) : Int :=
  if 1000 < len ∧ batchSize = 100 then
    min 200 (max 50 ((len : Int) / 10))
  else batchSize

/-- Effective batch size: the dynamic optimization, after which a
non-positive (invalid) size falls back to the default 100. -/
def effectiveBatchSize (len : Nat) (batchSize : Int) : Nat :=
  (if dynBatchSize len batchSize ≤ 0 then 100
   else dynBatchSize len batchSize).toNat

/-- One batch unit with its per-batch failure protection: a rejected
batch promise is replaced record-for-record by fallback records (the
`.catch` in parallel mode, the `try`/`catch` in sequential mode). -/
def processBatchChecked (h : Heap) (env : Env)
    (fm : List (String × String)) (b : List Val) : List Rec :=
  if env.batchFails b then b.map (fun _ => createFallbackObject fm)
  else processBatch h fm b

/-- The body of `sanitizeArray` for one mode.  `onJoinFail` is the
value returned by the `parallelError` catch: in the source it is the
recursive call `sanitizeArray(dbArray, fieldMapping, {...options,
parallel: false})`, which is unrolled below (the retry is sequential,
so the recursion terminates after one step).  Sequential mode never
consults `onJoinFail`. -/
def sanitizeArrayWith (h : Heap) (env : Env) (dbArray : Val)
    (fm : List (String × String)) (batchSize : Int) (parallel : Bool)
    (onJoinFail : List Rec) : List Rec :=
  match isArrayVal h dbArray with
  | none => []
  | some elems =>
    if elems.isEmpty then []
    else
      let ebs := effectiveBatchSize elems.length batchSize
      if elems.length ≤ ebs then
        -- small collections: one direct batch (a thrown batch is
        -- replaced by fallback records)
        processBatchChecked h env fm elems
      else
        let batches := createBatches elems ebs
        if parallel then
          if env.parallelJoinFails then onJoinFail
          else
            -- dispatch all batches, await the join, then flatten in
            -- batch order
            let batchResults := batches.map (processBatchChecked h env fm)
            batchResults.foldl (fun results br => results ++ br) []
        else
          -- process batches one at a time, appending each result
          batches.foldl
            (fun results b => results ++ processBatchChecked h env fm b)
            []

/-- `sanitizeArray(dbArray, fieldMapping = ARTICLE_FIELD_MAPPING,
options = {})`. -/
def sanitizeArray (h : Heap) (env : Env) (dbArray : Val)
    (fm : List (String × String) := ARTICLE_FIELD_MAPPING)
    (opts : SanitizeOptions := {}) : List Rec :=
  sanitizeArrayWith h env dbArray fm opts.batchSize opts.parallel
    (sanitizeArrayWith h env dbArray fm opts.batchSize false [])

/-! ### Positional conversion (`arrayToObject`) -/

/-- `value instanceof Date` conversion to the ISO string. -/
def dateToIso (h : Heap) (v : Val) : Val :=
  match v with
  | .ref id =>
    match List.lookup id h with
    | some (.dateN iso) => .prim (.vstr iso)
    | _ => v
  | _ => v

/-- The `fieldNames.forEach((fieldName, index) => ...)` loop of
`arrayToObject`: positions beyond the row length are skipped; the
output key is the article mapping of the field name, falling back to
its lowercase form; `Date` cells become ISO strings. -/
def rowToObject (h : Heap) (cells : List Val) :
    List String → Nat → List (String × Val) → List (String × Val)
  | [], _, acc => acc
  | fieldName :: rest, idx, acc =>
    if idx < cells.length then
      let mappedField :=
        match List.lookup fieldName ARTICLE_FIELD_MAPPING with
        | some m => if m = "" then fieldName.toLower else m
        | none => fieldName.toLower
      rowToObject h cells rest (idx + 1)
        (setKey acc mappedField (dateToIso h (cells.getD idx (.prim .vundef))))
    else rowToObject h cells rest (idx + 1) acc

/-- `arrayToObject(dbArray, fieldNames = ARTICLE_FIELD_NAMES)`:
non-array input yields `[]`; each non-array row yields an empty
record; each array row is converted positionally. -/
def arrayToObject (h : Heap) (dbArray : Val)
    (fieldNames : List String := ARTICLE_FIELD_NAMES) :
    List (List (String × Val)) :=
  match isArrayVal h dbArray with
  | none => []
  | some rows =>
    rows.map (fun row =>
      match isArrayVal h row with
      | none => []
      | some cells => rowToObject h cells fieldNames 0 [])

end DatabaseSanitizer

namespace DatabaseSanitizer

/-! ### Association-list lemmas -/

theorem lookup_setKey_self {α : Type} (r : List (String × α)) (k : String)
    (v : α) : List.lookup k (setKey r k v) = some v := by
  induction r with
  | nil => simp [setKey, List.lookup]
  | cons kv rest ih =>
    obtain ⟨k', v'⟩ := kv
    by_cases hk : k' = k
    · subst hk
      simp [setKey, List.lookup]
    · simp only [setKey, if_neg hk, List.lookup_cons]
      have : (k == k') = false := by
        simp [BEq.beq]
        exact fun hkk => hk hkk.symm
      rw [this]
      simpa using ih

theorem lookup_setKey_ne {α : Type} (r : List (String × α))
    (k k' : String) (v : α) (hne : k' ≠ k) :
    List.lookup k' (setKey r k v) = List.lookup k' r := by
  induction r with
  | nil =>
    have hb : (k' == k) = false := beq_eq_false_iff_ne.mpr hne
    simp [setKey, List.lookup_cons, hb]
  | cons kv rest ih =>
    obtain ⟨k₀, v₀⟩ := kv
    by_cases hk : k₀ = k
    · subst hk
      have hb : (k' == k₀) = false := beq_eq_false_iff_ne.mpr hne
      simp [setKey, List.lookup_cons, hb]
    · by_cases hk' : k' = k₀
      · subst hk'
        simp [setKey, hk, List.lookup_cons]
      · simp [setKey, hk, List.lookup_cons, hk', ih]

theorem lookup_deleteKey_self {α : Type} (r : List (String × α))
    (k : String) : List.lookup k (deleteKey r k) = none := by
  induction r with
  | nil => simp [deleteKey]
  | cons kv rest ih =>
    obtain ⟨k₀, v₀⟩ := kv
    by_cases hk : k₀ = k
    · subst hk
      simpa [deleteKey, List.filter] using ih
    · have hf : (decide (k₀ ≠ k)) = true := by simpa using hk
      simp only [deleteKey, List.filter] at ih ⊢
      rw [hf]
      simp only [List.lookup_cons]
      have : (k == k₀) = false := by
        simp [BEq.beq]
        exact fun hkk => hk hkk.symm
      rw [this]
      exact ih

theorem isSome_lookup_setKey {α : Type} (r : List (String × α))
    (k k' : String) (v : α)
    (h : (List.lookup k' r).isSome = true) :
    (List.lookup k' (setKey r k v)).isSome = true := by
  by_cases hk : k' = k
  · subst hk
    rw [lookup_setKey_self]
    rfl
  · rwa [lookup_setKey_ne _ _ _ _ hk]

/-- Looking up in a fold of assignments `acc[k] := g k` over a key
list: the keys of the list map to their assigned values, other keys
are untouched. -/
theorem lookup_foldl_setKey {α : Type} (g : String → α)
    (ks : List String) (acc : List (String × α)) (f : String) :
    List.lookup f (ks.foldl (fun a k => setKey a k (g k)) acc) =
      if f ∈ ks then some (g f) else List.lookup f acc := by
  induction ks generalizing acc with
  | nil => simp
  | cons k rest ih =>
    simp only [List.foldl_cons]
    rw [ih]
    by_cases hmem : f ∈ rest
    · simp [hmem, List.mem_cons]
    · by_cases hk : f = k
      · subst hk
        simp [hmem, lookup_setKey_self]
      · simp [hmem, hk, lookup_setKey_ne _ _ _ _ hk]

end DatabaseSanitizer

namespace DatabaseSanitizer

/-! ### Characterizing the field loop of `sanitizeObject` -/

/-- Outcome of one mapping pair in the field loop: `none` when the
source field is absent (the pair is skipped and the output field
omitted), `null` when the read throws, otherwise the extracted
value. -/
def fieldOutcome (h : Heap) (visited : Finset Nat) (obj : Val)
    (dbField : String) : Option Out :=
  match getOwn h obj dbField with
  | none => none
  | some .fthrow => some .oNull
  | some (.fval w) =>
    some (extractValFuel h (unvisitedCard h visited) visited w)

theorem sanitizeFields_cons (h : Heap) (visited : Finset Nat)
    (obj : Val) (db cf : String) (rest : List (String × String))
    (clean : Rec) :
    sanitizeFields h visited obj ((db, cf) :: rest) clean =
      match fieldOutcome h visited obj db with
      | none => sanitizeFields h visited obj rest clean
      | some o => sanitizeFields h visited obj rest (setKey clean cf o) := by
  cases hg : getOwn h obj db with
  | none => simp [sanitizeFields, fieldOutcome, hg]
  | some fv =>
    cases fv <;> simp [sanitizeFields, fieldOutcome, hg]

/-- Output fields not in the mapping's range pass through the loop
untouched. -/
theorem lookup_sanitizeFields_notmem (h : Heap) (visited : Finset Nat)
    (obj : Val) (fm : List (String × String)) (clean : Rec) (k : String)
    (hk : k ∉ fm.map Prod.snd) :
    List.lookup k (sanitizeFields h visited obj fm clean) =
      List.lookup k clean := by
  induction fm generalizing clean with
  | nil => simp [sanitizeFields]
  | cons p rest ih =>
    obtain ⟨db, cf⟩ := p
    simp only [List.map_cons, List.mem_cons] at hk
    push_neg at hk
    rw [sanitizeFields_cons]
    cases fieldOutcome h visited obj db with
    | none => exact ih _ hk.2
    | some o =>
      rw [ih _ hk.2, lookup_setKey_ne _ _ _ _ hk.1]

/-- For a mapping with no duplicate output fields, the loop's result
at an output field is exactly that pair's outcome. -/
theorem lookup_sanitizeFields_nodup (h : Heap) (visited : Finset Nat)
    (obj : Val) (fm : List (String × String)) (clean : Rec)
    (db cf : String) (hnodup : (fm.map Prod.snd).Nodup)
    (hmem : (db, cf) ∈ fm) :
    List.lookup cf (sanitizeFields h visited obj fm clean) =
      match fieldOutcome h visited obj db with
      | some o => some o
      | none => List.lookup cf clean := by
  induction fm generalizing clean with
  | nil => simp at hmem
  | cons p rest ih =>
    obtain ⟨db₀, cf₀⟩ := p
    simp only [List.map_cons, List.nodup_cons] at hnodup
    rw [sanitizeFields_cons]
    rcases List.mem_cons.mp hmem with hhead | htail
    · obtain ⟨hdb, hcf⟩ := Prod.mk.injEq .. ▸ congrArg id hhead
      · subst hdb
        subst hcf
        cases fieldOutcome h visited obj db with
        | none =>
          exact lookup_sanitizeFields_notmem h visited obj rest clean cf
            hnodup.1
        | some o =>
          rw [lookup_sanitizeFields_notmem h visited obj rest _ cf
            hnodup.1, lookup_setKey_self]
    · have hcf : cf₀ ≠ cf := by
        intro hEq
        subst hEq
        exact hnodup.1 (List.mem_map.mpr ⟨(db, cf₀), htail, rfl⟩)
      cases fieldOutcome h visited obj db₀ with
      | none => exact ih _ hnodup.2 htail
      | some o =>
        rw [ih _ hnodup.2 htail]
        cases fieldOutcome h visited obj db with
        | none => rw [lookup_setKey_ne _ _ _ _ (Ne.symm hcf)]
        | some o' => rfl

/-- A reference already on the recursion path (a DFS back-edge) always
extracts to `null`, at any fuel. -/
theorem extractValFuel_visited (h : Heap) (fuel : Nat)
    (visited : Finset Nat) (j : Nat) (hj : j ∈ visited) :
    extractValFuel h fuel visited (.ref j) = .oNull := by
  cases fuel <;> simp [extractValFuel, hj]

/-- `getOwn` on a plain object is field lookup. -/
theorem getOwn_plainObj (h : Heap) (id : Nat)
    (fields : List (String × FieldVal)) (k : String)
    (hnode : List.lookup id h = some (.plainObj fields)) :
    getOwn h (.ref id) k = List.lookup k fields := by
  simp [getOwn, hnode]

/-- `sanitizeObject` on a non-circular object reference runs the field
loop with the object added to the fresh path. -/
theorem sanitizeObject_ref (h : Heap) (id : Nat)
    (fm : List (String × String)) :
    sanitizeObject h (.ref id) fm ∅ =
      sanitizeFields h {id} (.ref id) fm [] := by
  simp [sanitizeObject]

end DatabaseSanitizer

namespace DatabaseSanitizer

/-- A heap object not on the path leaves the traversal fuel
positive. -/
theorem unvisitedCard_pos (h : Heap) (visited : Finset Nat) (wid : Nat)
    (n : Node) (hn : List.lookup wid h = some n) (hv : wid ∉ visited) :
    unvisitedCard h visited ≠ 0 := by
  have hmem : wid ∈ heapIds h := lookup_mem_heapIds h wid n hn
  have hin : wid ∈ heapIds h \ visited := Finset.mem_sdiff.mpr ⟨hmem, hv⟩
  intro h0
  rw [unvisitedCard, Finset.card_eq_zero] at h0
  rw [h0] at hin
  exact absurd hin (Finset.not_mem_empty wid)

/-- Extracting a wrapped scalar: the nested value is validated (not
recursed into). -/
theorem extract_wrapped (h : Heap) (fuel : Nat) (visited : Finset Nat)
    (wid : Nat) (wfields : List (String × FieldVal)) (w : Val)
    (hv : wid ∉ visited)
    (hn : List.lookup wid h = some (.plainObj wfields))
    (hval : List.lookup "value" wfields = some (.fval w))
    (hfuel : fuel ≠ 0) :
    extractValFuel h fuel visited (.ref wid) =
      valToOut (validateAndSanitizeValue w) := by
  cases fuel with
  | zero => exact absurd rfl hfuel
  | succ f => simp [extractValFuel, hv, hn, extractNodeWith, hval]

/-- Extracting a wrapped scalar whose accessor throws yields `null`. -/
theorem extract_wrapped_throw (h : Heap) (fuel : Nat)
    (visited : Finset Nat) (wid : Nat)
    (wfields : List (String × FieldVal))
    (hv : wid ∉ visited)
    (hn : List.lookup wid h = some (.plainObj wfields))
    (hval : List.lookup "value" wfields = some .fthrow)
    (hfuel : fuel ≠ 0) :
    extractValFuel h fuel visited (.ref wid) = .oNull := by
  cases fuel with
  | zero => exact absurd rfl hfuel
  | succ f => simp [extractValFuel, hv, hn, extractNodeWith, hval]

/-- The degraded-record marker set by the fallback builder. -/
theorem lookup_isFallback_createFallbackObject
    (fm : List (String × String)) :
    List.lookup "_isFallback" (createFallbackObject fm) =
      some (.oBool true) := by
  unfold createFallbackObject
  rw [lookup_setKey_ne _ _ _ _ (by decide), lookup_setKey_self]

end DatabaseSanitizer

open DatabaseSanitizer in
/-- C2: for every object containing a direct self-reference (a field
whose value is the object itself; more generally any back-edge to an
ancestor on the current recursion path), `sanitizeObject` terminates
(it is a total function of this embedding) and returns a record in
which every otherwise-extractable mapped field is populated with its
extracted value, the cyclic field's branch being `null`; the back-edge
is answered with `null` rather than an error. -/
theorem sanitizeObject_self_ref_terminates
    (h : Heap) (fm : List (String × String)) (id : Nat)
    (fields : List (String × FieldVal)) (selfDb selfClean : String)
    (hnode : List.lookup id h = some (.plainObj fields))
    (hnodup : (fm.map Prod.snd).Nodup)
    (hpair : (selfDb, selfClean) ∈ fm)
    (hself : List.lookup selfDb fields = some (.fval (.ref id))) :
    List.lookup selfClean (sanitizeObject h (.ref id) fm ∅) =
        some .oNull ∧
    (∀ db cf w, (db, cf) ∈ fm →
        List.lookup db fields = some (.fval w) →
        List.lookup cf (sanitizeObject h (.ref id) fm ∅) =
          some (extractValFuel h (unvisitedCard h {id}) {id} w)) ∧
    (∀ fuel visited j, j ∈ visited →
        extractValFuel h fuel visited (.ref j) = .oNull) := by
  have hmain : ∀ db cf w, (db, cf) ∈ fm →
      List.lookup db fields = some (.fval w) →
      List.lookup cf (sanitizeObject h (.ref id) fm ∅) =
        some (extractValFuel h (unvisitedCard h {id}) {id} w) := by
    intro db cf w hm hl
    rw [sanitizeObject_ref,
      lookup_sanitizeFields_nodup h {id} (.ref id) fm [] db cf hnodup hm]
    rw [fieldOutcome, getOwn_plainObj h id fields db hnode, hl]
  refine ⟨?_, hmain, fun fuel visited j hj =>
    extractValFuel_visited h fuel visited j hj⟩
  rw [hmain selfDb selfClean (.ref id) hpair hself,
    extractValFuel_visited h _ {id} id (Finset.mem_singleton_self id)]

open DatabaseSanitizer in
/-- C2 witness: a two-field record whose `SELF` field references the
record itself; the sanitized record is computed concretely. -/
theorem sanitizeObject_self_ref_terminates_witness :
    List.lookup 0
        [(0, Node.plainObj
          [("SELF", .fval (.ref 0)),
           ("TITLE", .fval (.prim (.vstr "t")))])] =
      some (Node.plainObj
        [("SELF", .fval (.ref 0)),
         ("TITLE", .fval (.prim (.vstr "t")))]) ∧
    ((([("SELF", "SELF"), ("TITLE", "TITLE")] :
        List (String × String)).map Prod.snd).Nodup) ∧
    sanitizeObject
        [(0, Node.plainObj
          [("SELF", .fval (.ref 0)),
           ("TITLE", .fval (.prim (.vstr "t")))])]
        (.ref 0) [("SELF", "SELF"), ("TITLE", "TITLE")] ∅ =
      [("SELF", .oNull), ("TITLE", .oStr "t")] ∧
    List.lookup "SELF"
        (sanitizeObject
          [(0, Node.plainObj
            [("SELF", .fval (.ref 0)),
             ("TITLE", .fval (.prim (.vstr "t")))])]
          (.ref 0) [("SELF", "SELF"), ("TITLE", "TITLE")] ∅) =
      some .oNull := by
  refine ⟨rfl, by decide, rfl, ?_⟩
  exact (sanitizeObject_self_ref_terminates
    [(0, Node.plainObj
      [("SELF", .fval (.ref 0)), ("TITLE", .fval (.prim (.vstr "t")))])]
    [("SELF", "SELF"), ("TITLE", "TITLE")] 0
    [("SELF", .fval (.ref 0)), ("TITLE", .fval (.prim (.vstr "t")))]
    "SELF" "SELF" rfl (by decide) (by decide) rfl).1

open DatabaseSanitizer in
/-- C3: an exception while processing one `(sourceField, outputField)`
pair (a throwing property read) leaves that output field `null`, does
not prevent the remaining pairs from being processed, and never puts
the degraded-record marker on the result; the `_isFallback` marker is
set (only) by `createFallbackObject`. -/
theorem sanitizeObject_field_exception_isolated
    (h : Heap) (fm : List (String × String)) (id : Nat)
    (fields : List (String × FieldVal)) (db cf : String)
    (hnode : List.lookup id h = some (.plainObj fields))
    (hnodup : (fm.map Prod.snd).Nodup)
    (hpair : (db, cf) ∈ fm)
    (hthrow : List.lookup db fields = some .fthrow) :
    List.lookup cf (sanitizeObject h (.ref id) fm ∅) = some .oNull ∧
    (∀ db' cf' w, (db', cf') ∈ fm →
        List.lookup db' fields = some (.fval w) →
        List.lookup cf' (sanitizeObject h (.ref id) fm ∅) =
          some (extractValFuel h (unvisitedCard h {id}) {id} w)) ∧
    ("_isFallback" ∉ fm.map Prod.snd →
        List.lookup "_isFallback" (sanitizeObject h (.ref id) fm ∅) =
          none) ∧
    List.lookup "_isFallback" (createFallbackObject fm) =
      some (.oBool true) := by
  refine ⟨?_, ?_, ?_, lookup_isFallback_createFallbackObject fm⟩
  · rw [sanitizeObject_ref,
      lookup_sanitizeFields_nodup h {id} (.ref id) fm [] db cf hnodup
        hpair]
    rw [fieldOutcome, getOwn_plainObj h id fields db hnode, hthrow]
  · intro db' cf' w hm hl
    rw [sanitizeObject_ref,
      lookup_sanitizeFields_nodup h {id} (.ref id) fm [] db' cf' hnodup
        hm]
    rw [fieldOutcome, getOwn_plainObj h id fields db' hnode, hl]
  · intro hmarker
    rw [sanitizeObject_ref,
      lookup_sanitizeFields_notmem h {id} (.ref id) fm [] _ hmarker]
    rfl

open DatabaseSanitizer in
/-- C3 witness: a record whose `BAD` field read throws; the other
field still sanitizes, and no marker appears. -/
theorem sanitizeObject_field_exception_isolated_witness :
    sanitizeObject
        [(0, Node.plainObj
          [("BAD", .fthrow), ("TITLE", .fval (.prim (.vstr "t")))])]
        (.ref 0) [("BAD", "BAD"), ("TITLE", "TITLE")] ∅ =
      [("BAD", .oNull), ("TITLE", .oStr "t")] ∧
    List.lookup "BAD"
        (sanitizeObject
          [(0, Node.plainObj
            [("BAD", .fthrow), ("TITLE", .fval (.prim (.vstr "t")))])]
          (.ref 0) [("BAD", "BAD"), ("TITLE", "TITLE")] ∅) =
      some .oNull ∧
    List.lookup "_isFallback"
        (sanitizeObject
          [(0, Node.plainObj
            [("BAD", .fthrow), ("TITLE", .fval (.prim (.vstr "t")))])]
          (.ref 0) [("BAD", "BAD"), ("TITLE", "TITLE")] ∅) =
      none := by
  refine ⟨rfl, ?_, ?_⟩
  · exact (sanitizeObject_field_exception_isolated
      [(0, Node.plainObj
        [("BAD", .fthrow), ("TITLE", .fval (.prim (.vstr "t")))])]
      [("BAD", "BAD"), ("TITLE", "TITLE")] 0
      [("BAD", .fthrow), ("TITLE", .fval (.prim (.vstr "t")))]
      "BAD" "BAD" rfl (by decide) (by decide) rfl).1
  · exact (sanitizeObject_field_exception_isolated
      [(0, Node.plainObj
        [("BAD", .fthrow), ("TITLE", .fval (.prim (.vstr "t")))])]
      [("BAD", "BAD"), ("TITLE", "TITLE")] 0
      [("BAD", .fthrow), ("TITLE", .fval (.prim (.vstr "t")))]
      "BAD" "BAD" rfl (by decide) (by decide) rfl).2.2.1 (by decide)

open DatabaseSanitizer in
/-- C6 counterexample: for the record `{A: {value: " a "}}` the claim
predicts output field `A = " a "` (the raw wrapped value), but the
validator trims the string: the sanitized record maps `A` to `"a"`. -/
theorem sanitizeObject_wrapped_raw_counterexample :
    sanitizeObject
        [(0, Node.plainObj [("A", .fval (.ref 1))]),
         (1, Node.plainObj [("value", .fval (.prim (.vstr " a ")))])]
        (.ref 0) [("A", "A")] ∅ =
      [("A", .oStr "a")] ∧
    List.lookup "A"
        (sanitizeObject
          [(0, Node.plainObj [("A", .fval (.ref 1))]),
           (1, Node.plainObj [("value", .fval (.prim (.vstr " a ")))])]
          (.ref 0) [("A", "A")] ∅) ≠
      some (valToOut (.prim (.vstr " a "))) := by
  refine ⟨rfl, ?_⟩
  intro hEq
  have hcomp : List.lookup "A"
      (sanitizeObject
        [(0, Node.plainObj [("A", .fval (.ref 1))]),
         (1, Node.plainObj [("value", .fval (.prim (.vstr " a ")))])]
        (.ref 0) [("A", "A")] ∅) = some (Out.oStr "a") := rfl
  rw [hcomp] at hEq
  injection hEq with h1
  injection h1 with h2
  exact absurd h2 (by decide)

open DatabaseSanitizer in
/-- C6 (amended): for every record field holding a wrapped scalar
`{value: v}`, `sanitizeObject` maps the corresponding output field to
`validateAndSanitizeValue v` — the value unwrapped through the `value`
accessor and then validated (equal to `v` itself whenever `v` is
validation-stable); an exception while reading the accessor yields
`null` for that field only. -/
theorem sanitizeObject_wrapped_scalar
    (h : Heap) (fm : List (String × String)) (id wid : Nat)
    (fields wfields : List (String × FieldVal)) (db cf : String)
    (hnode : List.lookup id h = some (.plainObj fields))
    (hnodup : (fm.map Prod.snd).Nodup)
    (hpair : (db, cf) ∈ fm)
    (hfield : List.lookup db fields = some (.fval (.ref wid)))
    (hwid : wid ≠ id)
    (hwnode : List.lookup wid h = some (.plainObj wfields)) :
    (∀ w, List.lookup "value" wfields = some (.fval w) →
        List.lookup cf (sanitizeObject h (.ref id) fm ∅) =
          some (valToOut (validateAndSanitizeValue w))) ∧
    (List.lookup "value" wfields = some .fthrow →
        List.lookup cf (sanitizeObject h (.ref id) fm ∅) =
          some .oNull) := by
  have hnv : wid ∉ ({id} : Finset Nat) := by
    simp [Finset.mem_singleton, hwid]
  have hfuel : unvisitedCard h ({id} : Finset Nat) ≠ 0 :=
    unvisitedCard_pos h {id} wid _ hwnode hnv
  have hbase : List.lookup cf (sanitizeObject h (.ref id) fm ∅) =
      some (extractValFuel h (unvisitedCard h {id}) {id} (.ref wid)) := by
    rw [sanitizeObject_ref,
      lookup_sanitizeFields_nodup h {id} (.ref id) fm [] db cf hnodup
        hpair]
    rw [fieldOutcome, getOwn_plainObj h id fields db hnode, hfield]
  constructor
  · intro w hval
    rw [hbase,
      extract_wrapped h _ {id} wid wfields w hnv hwnode hval hfuel]
  · intro hval
    rw [hbase,
      extract_wrapped_throw h _ {id} wid wfields hnv hwnode hval hfuel]

open DatabaseSanitizer in
/-- C6 witness: a record with a wrapped number and a wrapped field
whose accessor throws; computed concretely. -/
theorem sanitizeObject_wrapped_scalar_witness :
    sanitizeObject
        [(0, Node.plainObj
          [("A", .fval (.ref 1)), ("B", .fval (.ref 2))]),
         (1, Node.plainObj [("value", .fval (.prim (.vnum (.fin 7))))]),
         (2, Node.plainObj [("value", .fthrow)])]
        (.ref 0) [("A", "A"), ("B", "B")] ∅ =
      [("A", .oNum (.fin 7)), ("B", .oNull)] ∧
    List.lookup "A"
        (sanitizeObject
          [(0, Node.plainObj
            [("A", .fval (.ref 1)), ("B", .fval (.ref 2))]),
           (1, Node.plainObj [("value", .fval (.prim (.vnum (.fin 7))))]),
           (2, Node.plainObj [("value", .fthrow)])]
          (.ref 0) [("A", "A"), ("B", "B")] ∅) =
      some (valToOut (validateAndSanitizeValue (.prim (.vnum (.fin 7))))) ∧
    List.lookup "B"
        (sanitizeObject
          [(0, Node.plainObj
            [("A", .fval (.ref 1)), ("B", .fval (.ref 2))]),
           (1, Node.plainObj [("value", .fval (.prim (.vnum (.fin 7))))]),
           (2, Node.plainObj [("value", .fthrow)])]
          (.ref 0) [("A", "A"), ("B", "B")] ∅) =
      some .oNull := by
  refine ⟨rfl, ?_, ?_⟩
  · exact (sanitizeObject_wrapped_scalar
      [(0, Node.plainObj [("A", .fval (.ref 1)), ("B", .fval (.ref 2))]),
       (1, Node.plainObj [("value", .fval (.prim (.vnum (.fin 7))))]),
       (2, Node.plainObj [("value", .fthrow)])]
      [("A", "A"), ("B", "B")] 0 1
      [("A", .fval (.ref 1)), ("B", .fval (.ref 2))]
      [("value", .fval (.prim (.vnum (.fin 7))))]
      "A" "A" rfl (by decide) (by decide) rfl (by decide) rfl).1
      (.prim (.vnum (.fin 7))) rfl
  · exact (sanitizeObject_wrapped_scalar
      [(0, Node.plainObj [("A", .fval (.ref 1)), ("B", .fval (.ref 2))]),
       (1, Node.plainObj [("value", .fval (.prim (.vnum (.fin 7))))]),
       (2, Node.plainObj [("value", .fthrow)])]
      [("A", "A"), ("B", "B")] 0 2
      [("A", .fval (.ref 1)), ("B", .fval (.ref 2))]
      [("value", .fthrow)]
      "B" "B" rfl (by decide) (by decide) rfl (by decide) rfl).2 rfl

namespace DatabaseSanitizer

/-- The output key used when merging a CLOB field:
`fieldMapping[clobField] || clobField.toLowerCase()`. -/
def mappedClobField (fm : List (String × String)) (k : String) : String :=
  match List.lookup k fm with
  | some m => if m = "" then k.toLower else m
  | none => k.toLower

theorem mergeClobField_eq (fm : List (String × String)) (rec : Rec)
    (kv : String × Val) :
    mergeClobField fm rec kv =
      if kv.2 ≠ .prim (.vstr "") then
        setKey rec (mappedClobField fm kv.1) (valToOut kv.2)
      else deleteKey rec (mappedClobField fm kv.1) := rfl

end DatabaseSanitizer

open DatabaseSanitizer in
/-- C5: for every record input (an object reference) and every list of
requested large-object field names, the map returned by
`extractClobData` contains every requested field name as a key, bound
to its per-field classification; that classification is the empty
string whenever the field is absent, its read throws, or its
asynchronous fetch rejects. -/
theorem extractClobData_all_keys (h : Heap) (id : Nat)
    (requested : List String) :
    (∀ f ∈ requested,
        List.lookup f (extractClobData h (.ref id) requested) =
          some (extractClobField h (.ref id) f)) ∧
    (∀ f, getOwn h (.ref id) f = none →
        extractClobField h (.ref id) f = .prim (.vstr "")) ∧
    (∀ f, getOwn h (.ref id) f = some (.fval (.prim .vundef)) →
        extractClobField h (.ref id) f = .prim (.vstr "")) ∧
    (∀ f p, getOwn h (.ref id) f = some (.fval p) →
        clobHandleRes h p = some (.error ()) →
        extractClobField h (.ref id) f = .prim (.vstr "")) ∧
    (∀ f, getOwn h (.ref id) f = some .fthrow →
        extractClobField h (.ref id) f = .prim (.vstr "")) := by
  refine ⟨?_, ?_, ?_, ?_, ?_⟩
  · intro f hf
    show List.lookup f
      (requested.foldl
        (fun acc k => setKey acc k (extractClobField h (.ref id) k)) []) = _
    rw [lookup_foldl_setKey (extractClobField h (.ref id)) requested [] f]
    simp [hf]
  · intro f hg
    simp [extractClobField, hg]
  · intro f hg
    simp only [extractClobField]
    rw [hg]
    simp [clobHandleRes, hasOwn, getOwn]
  · intro f p hg hres
    simp [extractClobField, hg, hres]
  · intro f hg
    simp [extractClobField, hg]

open DatabaseSanitizer in
/-- C5 witness: `extractLargeFields({CONTENT: undefined},
['CONTENT','SOURCES'])` yields both keys bound to `''`, and a
rejecting fetch also yields `''`. -/
theorem extractClobData_all_keys_witness :
    extractClobData [(0, Node.plainObj [("CONTENT", .fval (.prim .vundef))])]
        (.ref 0) ["CONTENT", "SOURCES"] =
      [("CONTENT", .prim (.vstr "")), ("SOURCES", .prim (.vstr ""))] ∧
    ("CONTENT" ∈ (["CONTENT", "SOURCES"] : List String)) ∧
    List.lookup "CONTENT"
        (extractClobData
          [(0, Node.plainObj [("CONTENT", .fval (.prim .vundef))])]
          (.ref 0) ["CONTENT", "SOURCES"]) =
      some (extractClobField
        [(0, Node.plainObj [("CONTENT", .fval (.prim .vundef))])]
        (.ref 0) "CONTENT") ∧
    extractClobField
        [(0, Node.plainObj [("CONTENT", .fval (.ref 1))]),
         (1, Node.clobN (.error ()))]
        (.ref 0) "CONTENT" = .prim (.vstr "") := by
  refine ⟨rfl, by decide, ?_, ?_⟩
  · exact (extractClobData_all_keys
      [(0, Node.plainObj [("CONTENT", .fval (.prim .vundef))])] 0
      ["CONTENT", "SOURCES"]).1 "CONTENT" (by decide)
  · exact (extractClobData_all_keys
      [(0, Node.plainObj [("CONTENT", .fval (.ref 1))]),
       (1, Node.clobN (.error ()))] 0 ["CONTENT", "SOURCES"]).2.2.2.1
      "CONTENT" (.ref 1) rfl rfl

open DatabaseSanitizer in
/-- C4: per-record batch processing sanitizes the record, invokes CLOB
extraction only when the raw record has at least one configured CLOB
field as an own property, and merges the results: a non-empty result
overwrites the mapped field, an empty-string result deletes the mapped
field from the sanitized record (the field is absent afterwards). -/
theorem processBatch_clob_merge (h : Heap) (fm : List (String × String))
    (r : Val) (batch : List Val) :
    processBatch h fm batch = batch.map (processRecord h fm) ∧
    (CLOB_FIELDS.any (fun f => hasOwn h r f) = false →
        processRecord h fm r = sanitizeObject h r fm ∅) ∧
    (CLOB_FIELDS.any (fun f => hasOwn h r f) = true →
        processRecord h fm r =
          (extractClobData h r CLOB_FIELDS).foldl (mergeClobField fm)
            (sanitizeObject h r fm ∅)) ∧
    (∀ rec k v, v ≠ .prim (.vstr "") →
        List.lookup (mappedClobField fm k)
          (mergeClobField fm rec (k, v)) = some (valToOut v)) ∧
    (∀ rec k,
        List.lookup (mappedClobField fm k)
          (mergeClobField fm rec (k, .prim (.vstr "")))  = none) := by
  refine ⟨rfl, ?_, ?_, ?_, ?_⟩
  · intro hno
    simp [processRecord, hno]
  · intro hyes
    simp [processRecord, hyes]
  · intro rec k v hv
    rw [mergeClobField_eq]
    simp only [hv, if_true]
    rw [if_pos hv, lookup_setKey_self]
  · intro rec k
    rw [mergeClobField_eq]
    simp only [ne_eq, not_true_eq_false, if_neg]
    rw [if_neg (by simp), lookup_deleteKey_self]

open DatabaseSanitizer in
/-- C4 witness: a record whose `CONTENT` CLOB resolves to `"Hello"`
(overwrites) and whose `SOURCES` CLOB rejects (empty string: the field
is deleted from the sanitized record). -/
theorem processBatch_clob_merge_witness :
    processRecord
        [(0, Node.plainObj
          [("CONTENT", .fval (.ref 1)), ("SOURCES", .fval (.ref 2)),
           ("TITLE", .fval (.prim (.vstr "T")))]),
         (1, Node.clobN (.ok (some "Hello"))),
         (2, Node.clobN (.error ()))]
        [("CONTENT", "CONTENT"), ("SOURCES", "SOURCES"),
         ("TITLE", "TITLE")]
        (.ref 0) =
      [("CONTENT", .oStr "Hello"), ("TITLE", .oStr "T")] ∧
    List.lookup "SOURCES"
        (processRecord
          [(0, Node.plainObj
            [("CONTENT", .fval (.ref 1)), ("SOURCES", .fval (.ref 2)),
             ("TITLE", .fval (.prim (.vstr "T")))]),
           (1, Node.clobN (.ok (some "Hello"))),
           (2, Node.clobN (.error ()))]
          [("CONTENT", "CONTENT"), ("SOURCES", "SOURCES"),
           ("TITLE", "TITLE")]
          (.ref 0)) = none ∧
    List.lookup
        (mappedClobField
          [("CONTENT", "CONTENT"), ("SOURCES", "SOURCES"),
           ("TITLE", "TITLE")] "CONTENT")
        (mergeClobField
          [("CONTENT", "CONTENT"), ("SOURCES", "SOURCES"),
           ("TITLE", "TITLE")]
          [("TITLE", .oStr "T")] ("CONTENT", .prim (.vstr "Hello"))) =
      some (valToOut (.prim (.vstr "Hello"))) ∧
    List.lookup
        (mappedClobField
          [("CONTENT", "CONTENT"), ("SOURCES", "SOURCES"),
           ("TITLE", "TITLE")] "SOURCES")
        (mergeClobField
          [("CONTENT", "CONTENT"), ("SOURCES", "SOURCES"),
           ("TITLE", "TITLE")]
          [("SOURCES", .oRawRef 2), ("TITLE", .oStr "T")]
          ("SOURCES", .prim (.vstr ""))) = none := by
  refine ⟨rfl, rfl, ?_, ?_⟩
  · exact (processBatch_clob_merge
      [(0, Node.plainObj
        [("CONTENT", .fval (.ref 1)), ("SOURCES", .fval (.ref 2)),
         ("TITLE", .fval (.prim (.vstr "T")))]),
       (1, Node.clobN (.ok (some "Hello"))),
       (2, Node.clobN (.error ()))]
      [("CONTENT", "CONTENT"), ("SOURCES", "SOURCES"),
       ("TITLE", "TITLE")]
      (.ref 0) []).2.2.2.1 [("TITLE", .oStr "T")] "CONTENT"
      (.prim (.vstr "Hello")) (by simp)
  · exact (processBatch_clob_merge
      [(0, Node.plainObj
        [("CONTENT", .fval (.ref 1)), ("SOURCES", .fval (.ref 2)),
         ("TITLE", .fval (.prim (.vstr "T")))]),
       (1, Node.clobN (.ok (some "Hello"))),
       (2, Node.clobN (.error ()))]
      [("CONTENT", "CONTENT"), ("SOURCES", "SOURCES"),
       ("TITLE", "TITLE")]
      (.ref 0) []).2.2.2.2 [("SOURCES", .oRawRef 2), ("TITLE", .oStr "T")]
      "SOURCES"

namespace DatabaseSanitizer

/-! ### Batch orchestration lemmas -/

theorem join_createBatchesGo {α : Type} (bs : Nat) (hbs : bs ≠ 0) :
    ∀ (bound : Nat) (xs : List α), xs.length ≤ bound →
      (createBatchesGo bs bound xs).flatten = xs := by
  intro bound
  induction bound with
  | zero =>
    intro xs hxs
    cases xs with
    | nil => simp [createBatchesGo]
    | cons x rest => simp at hxs
  | succ bound ih =>
    intro xs hxs
    cases xs with
    | nil => simp [createBatchesGo]
    | cons x rest =>
      have hdrop : ((x :: rest).drop bs).length ≤ bound := by
        rw [List.length_drop]
        simp only [List.length_cons] at hxs ⊢
        omega
      simp only [createBatchesGo, List.flatten_cons]
      rw [ih _ hdrop, List.take_append_drop]

/-- Batches reassemble to the original collection, preserving order,
for every batch size. -/
theorem join_createBatches {α : Type} (xs : List α) (bs : Nat) :
    (createBatches xs bs).flatten = xs := by
  by_cases hbs : bs = 0
  · simp [createBatches, hbs]
  · rw [createBatches, if_neg hbs,
      join_createBatchesGo bs hbs xs.length xs le_rfl]

theorem foldl_append_eq_join {α β : Type} (f : β → List α)
    (l : List β) (init : List α) :
    l.foldl (fun results b => results ++ f b) init =
      init ++ (l.map f).flatten := by
  induction l generalizing init with
  | nil => simp
  | cons b rest ih => simp [ih, List.append_assoc]

theorem foldl_append_id_eq_join {α : Type} (l : List (List α))
    (init : List α) :
    l.foldl (fun results br => results ++ br) init =
      init ++ l.flatten := by
  induction l generalizing init with
  | nil => simp
  | cons b rest ih => simp [ih, List.append_assoc]

theorem length_processBatchChecked (h : Heap) (env : Env)
    (fm : List (String × String)) (b : List Val) :
    (processBatchChecked h env fm b).length = b.length := by
  unfold processBatchChecked processBatch
  split <;> simp

theorem effectiveBatchSize_ne_zero (len : Nat) (bs : Int) :
    effectiveBatchSize len bs ≠ 0 := by
  unfold effectiveBatchSize
  split
  · decide
  · omega

/-- Sequential-mode normal form of the orchestrator body: the
`onJoinFail` continuation is never consulted. -/
theorem sanitizeArrayWith_seq_nf (h : Heap) (env : Env) (x : Val)
    (fm : List (String × String)) (bs : Int) (o : List Rec) :
    sanitizeArrayWith h env x fm bs false o =
      match isArrayVal h x with
      | none => []
      | some elems =>
        if elems.isEmpty then []
        else
          if elems.length ≤ effectiveBatchSize elems.length bs then
            processBatchChecked h env fm elems
          else
            ((createBatches elems
                (effectiveBatchSize elems.length bs)).map
              (processBatchChecked h env fm)).flatten := by
  unfold sanitizeArrayWith
  cases isArrayVal h x with
  | none => rfl
  | some elems =>
    by_cases hemp : elems.isEmpty
    · simp [hemp]
    · by_cases hsmall :
        elems.length ≤ effectiveBatchSize elems.length bs
      · simp [hemp, hsmall]
      · simp only [hemp, hsmall, if_false, Bool.false_eq_true]
        rw [foldl_append_eq_join]
        simp

/-- The value of `sanitizeArray`, in either mode and under any failure
environment: non-array input yields `[]`; an empty collection yields
`[]`; a small collection is one protected batch; a large collection is
split by `createBatches` and the protected per-batch results are
concatenated in original batch order.  Parallel mode adds no further
behaviour: a failing join falls back to the sequential pass over the
same collection. -/
theorem sanitizeArray_normalForm (h : Heap) (env : Env) (x : Val)
    (fm : List (String × String)) (bs : Int) (par : Bool) :
    sanitizeArray h env x fm ⟨bs, par⟩ =
      match isArrayVal h x with
      | none => []
      | some elems =>
        if elems.isEmpty then []
        else
          if elems.length ≤ effectiveBatchSize elems.length bs then
            processBatchChecked h env fm elems
          else
            ((createBatches elems
                (effectiveBatchSize elems.length bs)).map
              (processBatchChecked h env fm)).flatten := by
  cases par with
  | false => exact sanitizeArrayWith_seq_nf h env x fm bs _
  | true =>
    unfold sanitizeArray
    rw [sanitizeArrayWith_seq_nf]
    simp only
    unfold sanitizeArrayWith
    cases hx : isArrayVal h x with
    | none => rfl
    | some elems =>
      by_cases hemp : elems.isEmpty
      · simp [hemp]
      · by_cases hsmall :
          elems.length ≤ effectiveBatchSize elems.length bs
        · simp [hemp, hsmall]
        · cases hjf : env.parallelJoinFails with
          | false =>
            simp only [hemp, hsmall, hjf, if_false, if_true,
              Bool.false_eq_true]
            rw [foldl_append_id_eq_join]
            simp
          | true =>
            simp only [hemp, hsmall, hjf, if_false, if_true,
              Bool.false_eq_true]

end DatabaseSanitizer

namespace DatabaseSanitizer

theorem length_flatten_map_processBatchChecked (h : Heap) (env : Env)
    (fm : List (String × String)) :
    ∀ (bsl : List (List Val)),
      ((bsl.map (processBatchChecked h env fm)).flatten).length =
        bsl.flatten.length := by
  intro bsl
  induction bsl with
  | nil => rfl
  | cons b rest ih =>
    rw [List.map_cons, List.flatten_cons, List.flatten_cons,
      List.length_append, List.length_append,
      length_processBatchChecked, ih]

theorem flatten_map_map {α β : Type} (g : α → β) :
    ∀ (bsl : List (List α)),
      (bsl.map (List.map g)).flatten = bsl.flatten.map g := by
  intro bsl
  induction bsl with
  | nil => rfl
  | cons b rest ih =>
    rw [List.map_cons, List.flatten_cons, List.flatten_cons,
      List.map_append, ih]

/-- In parallel mode with a failing join, the orchestrator body
returns its `onJoinFail` continuation (the sequential retry),
discarding the parallel batch results. -/
theorem sanitizeArrayWith_par_joinfail (h : Heap) (env : Env) (x : Val)
    (fm : List (String × String)) (bs : Int) (o : List Rec)
    (elems : List Val)
    (hjf : env.parallelJoinFails = true)
    (hx : isArrayVal h x = some elems)
    (hbig : effectiveBatchSize elems.length bs < elems.length) :
    sanitizeArrayWith h env x fm bs true o = o := by
  have hempf : elems.isEmpty = false := by
    cases elems with
    | nil => simp at hbig
    | cons a l => rfl
  have hsmallf : ¬ elems.length ≤ effectiveBatchSize elems.length bs := by
    omega
  unfold sanitizeArrayWith
  rw [hx]
  show (if elems.isEmpty then _ else _) = o
  rw [if_neg (by simp [hempf]), if_neg hsmallf, if_pos rfl,
    if_pos hjf]

/-- The normal form specialized to non-array input. -/
theorem sanitizeArray_nf_none (h : Heap) (env : Env) (x : Val)
    (fm : List (String × String)) (bs : Int) (par : Bool)
    (hx : isArrayVal h x = none) :
    sanitizeArray h env x fm ⟨bs, par⟩ = [] := by
  rw [sanitizeArray_normalForm, hx]

/-- The normal form specialized to array input. -/
theorem sanitizeArray_nf_some (h : Heap) (env : Env) (x : Val)
    (fm : List (String × String)) (bs : Int) (par : Bool)
    (elems : List Val) (hx : isArrayVal h x = some elems) :
    sanitizeArray h env x fm ⟨bs, par⟩ =
      if elems.isEmpty then []
      else
        if elems.length ≤ effectiveBatchSize elems.length bs then
          processBatchChecked h env fm elems
        else
          ((createBatches elems
              (effectiveBatchSize elems.length bs)).map
            (processBatchChecked h env fm)).flatten := by
  rw [sanitizeArray_normalForm, hx]

end DatabaseSanitizer

open DatabaseSanitizer in
/-- C10: for every collection, field mapping, batch size and failure
environment, `sanitizeArray` in parallel mode returns exactly the
sequence that sequential mode returns: both modes split the input with
the same `createBatches`, run the same protected `processBatch` per
batch (with identical per-batch fallback replacement), and concatenate
the batch results in original order, so the parallel flag never
affects the returned value. -/
theorem sanitizeArray_parallel_eq_sequential (h : Heap) (env : Env)
    (x : Val) (fm : List (String × String)) (bs : Int) :
    sanitizeArray h env x fm ⟨bs, true⟩ =
      sanitizeArray h env x fm ⟨bs, false⟩ := by
  rw [sanitizeArray_normalForm, sanitizeArray_normalForm]

open DatabaseSanitizer in
/-- C1: `sanitizeArray` is a total function of this embedding (no
exception reaches the caller); non-array input yields `[]`; an array
of `n` records yields exactly `n` sanitized records for every batch
size and mode, and — whenever no batch-level host failure occurs —
the record at position `i` is the processed form of input record `i`. -/
theorem sanitizeArray_total_ordered (h : Heap) (env : Env) (x : Val)
    (fm : List (String × String)) (bs : Int) (par : Bool) :
    (isArrayVal h x = none → sanitizeArray h env x fm ⟨bs, par⟩ = []) ∧
    (∀ elems, isArrayVal h x = some elems →
      (sanitizeArray h env x fm ⟨bs, par⟩).length = elems.length ∧
      ((∀ b, env.batchFails b = false) →
        sanitizeArray h env x fm ⟨bs, par⟩ =
          elems.map (processRecord h fm))) := by
  constructor
  · intro hx
    exact sanitizeArray_nf_none h env x fm bs par hx
  · intro elems hx
    rw [sanitizeArray_nf_some h env x fm bs par elems hx]
    constructor
    · by_cases hemp : elems.isEmpty
      · rw [if_pos hemp]
        cases elems with
        | nil => rfl
        | cons a l => simp at hemp
      · rw [if_neg hemp]
        by_cases hsmall :
          elems.length ≤ effectiveBatchSize elems.length bs
        · rw [if_pos hsmall, length_processBatchChecked]
        · rw [if_neg hsmall, length_flatten_map_processBatchChecked,
            join_createBatches]
    · intro hfail
      have hpbc : processBatchChecked h env fm =
          fun b => b.map (processRecord h fm) := by
        funext b
        unfold processBatchChecked
        rw [hfail b]
        simp [processBatch]
      by_cases hemp : elems.isEmpty
      · rw [if_pos hemp]
        cases elems with
        | nil => rfl
        | cons a l => simp at hemp
      · rw [if_neg hemp]
        by_cases hsmall :
          elems.length ≤ effectiveBatchSize elems.length bs
        · rw [if_pos hsmall, hpbc]
        · rw [if_neg hsmall, hpbc, flatten_map_map, join_createBatches]

open DatabaseSanitizer in
/-- C1 witness: a three-record collection (one clean record, one with
a throwing field, one non-object record) sanitized with batch size 2
in parallel mode, plus the non-collection inputs `null` and a plain
string. -/
theorem sanitizeArray_total_ordered_witness :
    isArrayVal
        [(0, Node.arrN [.ref 1, .ref 2, .prim .vnull]),
         (1, Node.plainObj [("ID", .fval (.prim (.vnum (.fin 1))))]),
         (2, Node.plainObj [("ID", .fthrow)])] (.ref 0) =
      some [.ref 1, .ref 2, .prim .vnull] ∧
    (sanitizeArray
        [(0, Node.arrN [.ref 1, .ref 2, .prim .vnull]),
         (1, Node.plainObj [("ID", .fval (.prim (.vnum (.fin 1))))]),
         (2, Node.plainObj [("ID", .fthrow)])]
        {} (.ref 0) [("ID", "ID")] ⟨2, true⟩).length = 3 ∧
    sanitizeArray
        [(0, Node.arrN [.ref 1, .ref 2, .prim .vnull]),
         (1, Node.plainObj [("ID", .fval (.prim (.vnum (.fin 1))))]),
         (2, Node.plainObj [("ID", .fthrow)])]
        {} (.ref 0) [("ID", "ID")] ⟨2, true⟩ =
      [.ref 1, .ref 2, .prim .vnull].map
        (processRecord
          [(0, Node.arrN [.ref 1, .ref 2, .prim .vnull]),
           (1, Node.plainObj [("ID", .fval (.prim (.vnum (.fin 1))))]),
           (2, Node.plainObj [("ID", .fthrow)])] [("ID", "ID")]) ∧
    sanitizeArray [] {} (.prim .vnull) [("ID", "ID")] ⟨100, false⟩ =
      [] ∧
    sanitizeArray [] {} (.prim (.vstr "not a collection"))
        [("ID", "ID")] ⟨100, false⟩ = [] := by
  refine ⟨rfl, ?_, ?_, ?_, ?_⟩
  · exact ((sanitizeArray_total_ordered
      [(0, Node.arrN [.ref 1, .ref 2, .prim .vnull]),
       (1, Node.plainObj [("ID", .fval (.prim (.vnum (.fin 1))))]),
       (2, Node.plainObj [("ID", .fthrow)])]
      {} (.ref 0) [("ID", "ID")] 2 true).2
      [.ref 1, .ref 2, .prim .vnull] rfl).1.trans rfl
  · exact ((sanitizeArray_total_ordered
      [(0, Node.arrN [.ref 1, .ref 2, .prim .vnull]),
       (1, Node.plainObj [("ID", .fval (.prim (.vnum (.fin 1))))]),
       (2, Node.plainObj [("ID", .fthrow)])]
      {} (.ref 0) [("ID", "ID")] 2 true).2
      [.ref 1, .ref 2, .prim .vnull] rfl).2 (fun _ => rfl)
  · exact (sanitizeArray_total_ordered [] {} (.prim .vnull)
      [("ID", "ID")] 100 false).1 rfl
  · exact (sanitizeArray_total_ordered [] {}
      (.prim (.vstr "not a collection")) [("ID", "ID")] 100 false).1 rfl

open DatabaseSanitizer in
/-- C8: when the overall parallel dispatch join fails (as opposed to
an individual batch failing, which is replaced per batch), the
orchestrator discards the parallel results and reissues the entire
original collection as one sequential invocation, returning that
sequential result. -/
theorem sanitizeArray_join_failure_sequential_retry (h : Heap)
    (env : Env) (x : Val) (fm : List (String × String)) (bs : Int)
    (elems : List Val)
    (hjf : env.parallelJoinFails = true)
    (hx : isArrayVal h x = some elems)
    (hbig : effectiveBatchSize elems.length bs < elems.length) :
    sanitizeArray h env x fm ⟨bs, true⟩ =
      sanitizeArrayWith h env x fm bs false [] ∧
    sanitizeArray h env x fm ⟨bs, true⟩ =
      sanitizeArray h env x fm ⟨bs, false⟩ := by
  constructor
  · show sanitizeArrayWith h env x fm bs true
      (sanitizeArrayWith h env x fm bs false []) = _
    exact sanitizeArrayWith_par_joinfail h env x fm bs _ elems hjf hx
      hbig
  · rw [sanitizeArray_normalForm, sanitizeArray_normalForm]

open DatabaseSanitizer in
/-- C8 witness: a two-record collection with batch size 1, a parallel
join failure, and no per-batch failures; the parallel call returns the
sequential result, computed concretely. -/
theorem sanitizeArray_join_failure_sequential_retry_witness :
    ({ parallelJoinFails := true } : Env).parallelJoinFails = true ∧
    isArrayVal [(9, Node.arrN [.prim .vnull, .prim .vnull])] (.ref 9) =
      some [.prim .vnull, .prim .vnull] ∧
    effectiveBatchSize 2 1 < 2 ∧
    sanitizeArray [(9, Node.arrN [.prim .vnull, .prim .vnull])]
        { parallelJoinFails := true } (.ref 9) [("A", "A")] ⟨1, true⟩ =
      sanitizeArray [(9, Node.arrN [.prim .vnull, .prim .vnull])]
        { parallelJoinFails := true } (.ref 9) [("A", "A")]
        ⟨1, false⟩ ∧
    sanitizeArray [(9, Node.arrN [.prim .vnull, .prim .vnull])]
        { parallelJoinFails := true } (.ref 9) [("A", "A")] ⟨1, true⟩ =
      [[("A", .oNull), ("_isFallback", .oBool true),
        ("_fallbackReason", .oStr "sanitization_failure")],
       [("A", .oNull), ("_isFallback", .oBool true),
        ("_fallbackReason", .oStr "sanitization_failure")]] := by
  refine ⟨rfl, rfl, by decide, ?_, rfl⟩
  exact (sanitizeArray_join_failure_sequential_retry
    [(9, Node.arrN [.prim .vnull, .prim .vnull])]
    { parallelJoinFails := true } (.ref 9) [("A", "A")] 1
    [.prim .vnull, .prim .vnull] rfl rfl (by decide)).2

namespace DatabaseSanitizer

/-- Positions beyond the field-name list are ignored: appending extra
cells to a row that already covers the field list does not change the
converted record. -/
theorem rowToObject_ignores_extras (h : Heap) (cells extra : List Val) :
    ∀ (fns : List String) (idx : Nat) (acc : List (String × Val)),
      idx + fns.length ≤ cells.length →
      rowToObject h (cells ++ extra) fns idx acc =
        rowToObject h cells fns idx acc := by
  intro fns
  induction fns with
  | nil => intro idx acc _; rfl
  | cons fn rest ih =>
    intro idx acc hle
    simp only [List.length_cons] at hle
    have hidx : idx < cells.length := by omega
    have hidx2 : idx < (cells ++ extra).length := by
      rw [List.length_append]; omega
    have hg : (cells ++ extra).getD idx (Val.prim .vundef) =
        cells.getD idx (Val.prim .vundef) := by
      rw [List.getD_eq_getElem?_getD, List.getD_eq_getElem?_getD,
        List.getElem?_append_left hidx]
    unfold rowToObject
    rw [if_pos hidx2, if_pos hidx, hg, ih (idx + 1) _ (by omega)]

/-- The row map of `arrayToObject`. -/
theorem arrayToObject_eq_map (h : Heap) (x : Val) (rows : List Val)
    (fns : List String) (hx : isArrayVal h x = some rows) :
    arrayToObject h x fns =
      rows.map (fun row =>
        match isArrayVal h row with
        | none => []
        | some cells => rowToObject h cells fns 0 []) := by
  unfold arrayToObject
  rw [hx]

end DatabaseSanitizer

open DatabaseSanitizer in
/-- C7 counterexample: `positionalToRecords([[1,'A','a']],
['ID','TITLE','SLUG'])` does not produce the lowercase keys the claim
states: the article field mapping sends these names to their uppercase
forms. -/
theorem arrayToObject_lowercase_counterexample :
    arrayToObject
        [(0, Node.arrN [.ref 1]),
         (1, Node.arrN
          [.prim (.vnum (.fin 1)), .prim (.vstr "A"),
           .prim (.vstr "a")])]
        (.ref 0) ["ID", "TITLE", "SLUG"] =
      [[("ID", .prim (.vnum (.fin 1))), ("TITLE", .prim (.vstr "A")),
        ("SLUG", .prim (.vstr "a"))]] ∧
    arrayToObject
        [(0, Node.arrN [.ref 1]),
         (1, Node.arrN
          [.prim (.vnum (.fin 1)), .prim (.vstr "A"),
           .prim (.vstr "a")])]
        (.ref 0) ["ID", "TITLE", "SLUG"] ≠
      [[("id", .prim (.vnum (.fin 1))), ("title", .prim (.vstr "A")),
        ("slug", .prim (.vstr "a"))]] := by
  exact ⟨rfl, by decide⟩

open DatabaseSanitizer in
/-- C7 (amended): `positionalToRecords([[1,'A','a']],
['ID','TITLE','SLUG'])` returns `[{ID:1, TITLE:'A', SLUG:'a'}]` (the
default article mapping keeps these keys uppercase), and
`positionalToRecords([[1,'A']], …)` returns `[{ID:1, TITLE:'A'}]` with
the `SLUG` key entirely absent; rows longer than the field list ignore
the extra positions and a non-array row yields an empty record. -/
theorem arrayToObject_positional (h : Heap) (x : Val)
    (rows : List Val) (i : Nat) (row : Val) (fns : List String)
    (cells extra : List Val) :
    arrayToObject
        [(0, Node.arrN [.ref 1]),
         (1, Node.arrN
          [.prim (.vnum (.fin 1)), .prim (.vstr "A"),
           .prim (.vstr "a")])]
        (.ref 0) ["ID", "TITLE", "SLUG"] =
      [[("ID", .prim (.vnum (.fin 1))), ("TITLE", .prim (.vstr "A")),
        ("SLUG", .prim (.vstr "a"))]] ∧
    arrayToObject
        [(0, Node.arrN [.ref 1]),
         (1, Node.arrN [.prim (.vnum (.fin 1)), .prim (.vstr "A")])]
        (.ref 0) ["ID", "TITLE", "SLUG"] =
      [[("ID", .prim (.vnum (.fin 1))), ("TITLE", .prim (.vstr "A"))]] ∧
    List.lookup "SLUG"
        [("ID", Val.prim (.vnum (.fin 1))),
         ("TITLE", Val.prim (.vstr "A"))] = none ∧
    (fns.length ≤ cells.length →
      rowToObject h (cells ++ extra) fns 0 [] =
        rowToObject h cells fns 0 []) ∧
    (isArrayVal h x = some rows → rows[i]? = some row →
      isArrayVal h row = none →
      (arrayToObject h x fns)[i]? = some []) := by
  refine ⟨rfl, rfl, rfl, ?_, ?_⟩
  · intro hle
    exact rowToObject_ignores_extras h cells extra fns 0 [] (by omega)
  · intro hx hrow hna
    rw [arrayToObject_eq_map h x rows fns hx, List.getElem?_map, hrow]
    rw [Option.map_some']
    rw [hna]

open DatabaseSanitizer in
/-- C7 witness: the general clauses evaluated concretely — a row with
an extra fourth cell converts like the three-cell row, and a
non-array row yields the empty record. -/
theorem arrayToObject_positional_witness :
    (((["ID", "TITLE", "SLUG"] : List String)).length ≤
      ([.prim (.vnum (.fin 1)), .prim (.vstr "A"),
        .prim (.vstr "a")] : List Val).length) ∧
    rowToObject []
        ([.prim (.vnum (.fin 1)), .prim (.vstr "A"),
          .prim (.vstr "a")] ++ [.prim (.vstr "EXTRA")])
        ["ID", "TITLE", "SLUG"] 0 [] =
      rowToObject []
        [.prim (.vnum (.fin 1)), .prim (.vstr "A"), .prim (.vstr "a")]
        ["ID", "TITLE", "SLUG"] 0 [] ∧
    isArrayVal [(0, Node.arrN [.prim (.vstr "x")])] (.ref 0) =
      some [.prim (.vstr "x")] ∧
    (arrayToObject [(0, Node.arrN [.prim (.vstr "x")])] (.ref 0)
        ["ID", "TITLE", "SLUG"])[0]? = some [] := by
  refine ⟨by decide, ?_, rfl, ?_⟩
  · exact (arrayToObject_positional []
      (.prim .vnull) [] 0 (.prim .vnull) ["ID", "TITLE", "SLUG"]
      [.prim (.vnum (.fin 1)), .prim (.vstr "A"), .prim (.vstr "a")]
      [.prim (.vstr "EXTRA")]).2.2.2.1 (by decide)
  · exact (arrayToObject_positional
      [(0, Node.arrN [.prim (.vstr "x")])] (.ref 0)
      [.prim (.vstr "x")] 0 (.prim (.vstr "x")) ["ID", "TITLE", "SLUG"]
      [] []).2.2.2.2 rfl rfl rfl
